import Mathlib

/-!
Verification of the HSTS package: a shallow embedding of the
Strict-Transport-Security header parser (directives.go), the host-keyed
policy store with suffix lookup, and the request/response interception
logic (transport.go), together with theorems about the spec's claims.

Strings are modelled as `List Char`; Go `time.Time`/`time.Duration` are
modelled as `Int` counts of seconds (the constant nanosecond scaling in Go
is uniform and cancels in every comparison the code performs); the Go zero
`time.Time` is modelled as `0`, matching `Time.IsZero`.
-/

namespace Hsts

/-- The characters of a string literal. -/
def str (s : String) : List Char := s.data

/-- Go `unicode.IsSpace`: Unicode white space as tested by `strings.TrimSpace`. -/
def goIsSpace (c : Char) : Bool :=
  c = ' ' || c = '\t' || c = '\n' || c = Char.ofNat 0x0B || c = Char.ofNat 0x0C ||
  c = '\r' || c = Char.ofNat 0x85 || c = Char.ofNat 0xA0 || c = Char.ofNat 0x1680 ||
  (0x2000 ≤ c.toNat && c.toNat ≤ 0x200A) || c = Char.ofNat 0x2028 ||
  c = Char.ofNat 0x2029 || c = Char.ofNat 0x202F || c = Char.ofNat 0x205F ||
  c = Char.ofNat 0x3000

/-- Go `strings.TrimSpace`: drop white space from both ends. -/
def trimSpace (s : List Char) : List Char :=
  ((s.dropWhile goIsSpace).reverse.dropWhile goIsSpace).reverse

/-- Go `strings.Split(s, sep)` for a one-character separator: the list of
(possibly empty) chunks between occurrences of `sep`. -/
def splitOnChar (sep : Char) : List Char → List (List Char)
  | [] => [[]]
  | c :: rest =>
    if c = sep then [] :: splitOnChar sep rest
    else
      match splitOnChar sep rest with
      | p :: ps => (c :: p) :: ps
      | [] => [[c]]

/-- Go `strings.SplitN(s, sep, 2)` for a one-character separator: the part
before the first `sep` and, when `sep` occurs, the part after it. -/
def splitOnce (sep : Char) : List Char → List Char × Option (List Char)
  | [] => ([], none)
  | c :: rest =>
    if c = sep then ([], some rest)
    else
      let r := splitOnce sep rest
      (c :: r.1, r.2)

/-- Go `strings.ToLower` restricted to ASCII (all directive names in the
RFC grammar relevant here are ASCII; `Char.toLower` lower-cases exactly
the ASCII letters). -/
def lowerASCII (s : List Char) : List Char := s.map Char.toLower

/-- Value of a hexadecimal digit, as Go `strconv`'s `unhex`. -/
def hexVal (c : Char) : Option Nat :=
  if '0' ≤ c ∧ c ≤ '9' then some (c.toNat - '0'.toNat)
  else if 'a' ≤ c ∧ c ≤ 'f' then some (c.toNat - 'a'.toNat + 10)
  else if 'A' ≤ c ∧ c ≤ 'F' then some (c.toNat - 'A'.toNat + 10)
  else none

/-- Go `strconv.Atoi`: an optional sign followed by one or more decimal
digits, value restricted to the 64-bit signed range. -/
def goAtoi (s : List Char) : Option Int :=
  let (neg, digits) :=
    match s with
    | '-' :: rest => (true, rest)
    | '+' :: rest => (false, rest)
    | _ => (false, s)
  if digits = [] then none
  else if digits.all Char.isDigit then
    let n : Nat := digits.foldl (fun a c => a * 10 + (c.toNat - '0'.toNat)) 0
    let v : Int := if neg then -(n : Int) else (n : Int)
    if -(2 ^ 63) ≤ v ∧ v ≤ 2 ^ 63 - 1 then some v else none
  else none

/-- Whether `n` is a valid Unicode scalar value (Go `utf8.ValidRune` for
non-negative runes). -/
def validRune (n : Nat) : Bool :=
  (n < 0xD800 || (0xDFFF < n && n ≤ 0x10FFFF))

/-- The body of Go `strconv.Unquote`'s double-quoted loop: repeatedly apply
`unquoteChar` with quote `"`.  A bare `"` inside is an error; escape
sequences follow Go string syntax.  `\x`, octal and `\u`/`\U` escapes are
modelled as producing the escaped scalar value (Go appends the raw byte
for `\x`/octal; for values below 0x80, and for every input any claim
exercises, the two coincide). -/
def unqLoop : List Char → Option (List Char)
  | [] => some []
  | c :: rest =>
    if c = '"' then none
    else if c = '\\' then
      match rest with
      | [] => none
      | e :: rest2 =>
        if e = 'a' then (unqLoop rest2).map (Char.ofNat 0x07 :: ·)
        else if e = 'b' then (unqLoop rest2).map (Char.ofNat 0x08 :: ·)
        else if e = 'f' then (unqLoop rest2).map (Char.ofNat 0x0C :: ·)
        else if e = 'n' then (unqLoop rest2).map ('\n' :: ·)
        else if e = 'r' then (unqLoop rest2).map ('\r' :: ·)
        else if e = 't' then (unqLoop rest2).map ('\t' :: ·)
        else if e = 'v' then (unqLoop rest2).map (Char.ofNat 0x0B :: ·)
        else if e = '\\' then (unqLoop rest2).map ('\\' :: ·)
        else if e = '"' then (unqLoop rest2).map ('"' :: ·)
        else if e = 'x' then
          match rest2 with
          | h1 :: h2 :: rest3 =>
            match hexVal h1, hexVal h2 with
            | some a, some b => (unqLoop rest3).map (Char.ofNat (a * 16 + b) :: ·)
            | _, _ => none
          | _ => none
        else if e = 'u' then
          match rest2 with
          | h1 :: h2 :: h3 :: h4 :: rest3 =>
            match hexVal h1, hexVal h2, hexVal h3, hexVal h4 with
            | some a, some b, some c3, some d =>
              let v := ((a * 16 + b) * 16 + c3) * 16 + d
              if validRune v then (unqLoop rest3).map (Char.ofNat v :: ·) else none
            | _, _, _, _ => none
          | _ => none
        else if e = 'U' then
          match rest2 with
          | h1 :: h2 :: h3 :: h4 :: h5 :: h6 :: h7 :: h8 :: rest3 =>
            match hexVal h1, hexVal h2, hexVal h3, hexVal h4,
                  hexVal h5, hexVal h6, hexVal h7, hexVal h8 with
            | some a, some b, some c3, some d, some a2, some b2, some c4, some d2 =>
              let v := ((((((a * 16 + b) * 16 + c3) * 16 + d) * 16 + a2) * 16 + b2)
                          * 16 + c4) * 16 + d2
              if validRune v then (unqLoop rest3).map (Char.ofNat v :: ·) else none
            | _, _, _, _, _, _, _, _ => none
          | _ => none
        else if '0' ≤ e ∧ e ≤ '7' then
          match rest2 with
          | o1 :: o2 :: rest3 =>
            if ('0' ≤ o1 ∧ o1 ≤ '7') ∧ ('0' ≤ o2 ∧ o2 ≤ '7') then
              let v := (e.toNat - '0'.toNat) * 64 + (o1.toNat - '0'.toNat) * 8 +
                       (o2.toNat - '0'.toNat)
              if v ≤ 255 then (unqLoop rest3).map (Char.ofNat v :: ·) else none
            else none
          | _ => none
        else none
    else (unqLoop rest).map (c :: ·)

/-- Go `strconv.Unquote` as called by `parse`: the input always begins with
`"` at the call sites (guarded by `strings.HasPrefix`); a complete
double-quoted string is unescaped, anything else is an error. -/
def unquoteGo (s : List Char) : Option (List Char) :=
  match s with
  | '"' :: rest =>
    if rest.getLast? = some '"' then
      let inner := rest.dropLast
      if '\n' ∈ inner then none else unqLoop inner
    else none
  | _ => none

/-- A directive stores HSTS state information for a given host
(directives.go).  `received` is the Go `time.Time` (0 = the zero time),
`maxAge` the Go `time.Duration` in seconds. -/
structure Directive where
  received : Int
  maxAge : Int
  includeSubDomains : Bool
deriving DecidableEq, Repr

/-- The loop state of `parse`: the set of directive names already seen
(the Go `directives` map used as a set) and the two known directives. -/
structure PState where
  directives : List (List Char)
  maxAge : Int
  includeSubDomains : Bool
deriving DecidableEq, Repr

/-- The (trimmed, lower-cased) name of one `;`-separated field:
`name` of the `name[=value]` split at the first `=`. -/
def canonName (field : List Char) : List Char :=
  lowerASCII (trimSpace (splitOnce '=' field).1)

/-- The trimmed raw value of one field (empty when no `=` is present). -/
def rawValue (field : List Char) : List Char :=
  trimSpace (((splitOnce '=' field).2).getD [])

/-- Whether the value is subjected to unquoting:
`strings.HasPrefix(value, "\x22") && strings.HasSuffix(value, "\x22")`. -/
def hasDoubleQuotes (value : List Char) : Bool :=
  (value.head? = some '"') && (value.getLast? = some '"')

/-- The value after the optional quoted-string stage: `none` when the value
looked quoted but `strconv.Unquote` failed (the directive body is then
skipped by `continue`). -/
def valueStage (field : List Char) : Option (List Char) :=
  if hasDoubleQuotes (rawValue field) then unquoteGo (rawValue field)
  else some (rawValue field)

/-- The integer a `max-age` field contributes: its post-quoting value fed
to `strconv.Atoi`, `none` when either stage fails. -/
def effAge (field : List Char) : Option Int :=
  match valueStage field with
  | none => none
  | some v => goAtoi v

/-- One iteration of `parse`'s loop over the `;`-separated fields
(directives.go, first version): trim and lower-case the name, drop
duplicate names, record the name as seen, unquote a quoted value, then
interpret `max-age` / `includesubdomains`. -/
def processField (st : PState) (field : List Char) : PState :=
  if canonName field ∈ st.directives then st
  else
    match valueStage field with
    | none => { st with directives := canonName field :: st.directives }
    | some value =>
      if canonName field = str "max-age" then
        match goAtoi value with
        | none => { st with directives := canonName field :: st.directives }
        | some secs =>
          { st with directives := canonName field :: st.directives, maxAge := secs }
      else if canonName field = str "includesubdomains" then
        if value ≠ [] then { st with directives := canonName field :: st.directives }
        else
          { st with directives := canonName field :: st.directives,
                    includeSubDomains := true }
      else { st with directives := canonName field :: st.directives }

/-- `parse` after the header has been split into fields. -/
def parseFields (fields : List (List Char)) (now : Int) : Option Directive :=
  let st := fields.foldl processField ⟨[], 0, false⟩
  if str "max-age" ∈ st.directives then
    some { received := now, maxAge := st.maxAge, includeSubDomains := st.includeSubDomains }
  else none

/-- `parse` of directives.go: parse a Strict-Transport-Security header.
`time.Now()` is passed explicitly as `now`.  Returns `none` ("no record",
spec: Invalid) exactly as the Go function returns `nil`. -/
def parse (header : List Char) (now : Int) : Option Directive :=
  parseFields (splitOnChar ';' header) now

/-! ## The policy store and the transport (transport.go, first version) -/

/-- The `state` map of `Transport`: host name to directive.  A Go map is
modelled as a function to `Option`. -/
def Store : Type := List Char → Option Directive

/-- Go `delete(state, host)`. -/
def deleteKey (state : Store) (host : List Char) : Store :=
  fun k => if k = host then none else state k

/-- Go `state[host] = d`. -/
def insertKey (state : Store) (host : List Char) (d : Directive) : Store :=
  fun k => if k = host then some d else state k

/-- `New`: the initial store, seeding one permanent directive per preload
entry (`&directive{includeSubDomains: includeSubDomains}`: zero `received`,
zero `maxAge`).  The preload map is modelled as an association list. -/
def new (preload : List (List Char × Bool)) : Store :=
  preload.foldl (fun st e => insertKey st e.1 ⟨0, 0, e.2⟩) (fun _ => none)

/-- The suffix after the first `.` of the host
(`host[strings.Index(host, ".")+1:]`), or `none` when no `.` remains. -/
def stripLabel : List Char → Option (List Char)
  | [] => none
  | c :: rest => if c = '.' then some rest else stripLabel rest

/-- `find` with explicit fuel; `find` recurses on ever-shorter suffixes, so
`host.length + 1` steps always suffice and the `0` case is unreachable. -/
def findFuel (state : Store) : Nat → List Char → Bool → Option Directive
  | 0, _, _ => none
  | fuel + 1, host, exact =>
    match state host with
    | some d =>
      if exact || d.includeSubDomains then some d
      else
        match stripLabel host with
        | some rest => findFuel state fuel rest false
        | none => none
    | none =>
      match stripLabel host with
      | some rest => findFuel state fuel rest false
      | none => none

/-- `find` of transport.go: look the host up, accepting a hit when the
lookup is exact or the record includes subdomains, otherwise strip the
leftmost label and retry non-exactly. -/
def find (state : Store) (host : List Char) (exact : Bool) : Option Directive :=
  findFuel state (host.length + 1) host exact

/-- A request URL: scheme, authority (host, possibly `host:port`), and the
rest of the URL (path, query, fragment), which the transport never touches. -/
structure URL where
  scheme : List Char
  host : List Char
  rest : List Char
deriving DecidableEq, Repr

/-- Go `url.URL.String()` for the URLs at hand: `scheme://host` followed by
the untouched remainder. -/
def urlString (u : URL) : List Char :=
  u.scheme ++ str "://" ++ u.host ++ u.rest

/-- The `u.Host` rewrite of `needsUpgrade` (section 8.3 step 5b): when the
authority contains a `:` and the part after the first `:` parses as an
integer, port 80 becomes 443 and the authority is re-rendered with `%d`. -/
def rewriteHost (h : List Char) : List Char :=
  if ':' ∈ h then
    match splitOnce ':' h with
    | (hp0, some hp1) =>
      match goAtoi hp1 with
      | some port =>
        hp0 ++ ':' :: (toString (if port = 80 then 443 else port)).data
      | none => h
    | (_, none) => h
  else h

/-- `needsUpgrade` of transport.go: whether an HTTP request must be
upgraded to HTTPS; returns the redirect URL and the store after the
lazy-expiry side effect (`delete` of the request-host key). -/
def needsUpgrade (state : Store) (req : URL) (now : Int) : Option URL × Store :=
  if req.scheme ≠ str "http" then (none, state)
  else
    match find state req.host true with
    | none => (none, state)
    | some d =>
      if d.received ≠ 0 ∧ now > d.received + d.maxAge then
        (none, deleteKey state req.host)
      else
        let u : URL :=
          { req with
            scheme := if req.scheme = str "http" then str "https" else req.scheme,
            host := rewriteHost req.host }
        (some u, state)

/-- What `RoundTrip` does with a request before any network traffic:
either a synthesized redirect (`reply` builds a response with the given
status code and a `Location` header equal to `u.String()`) or delegation
to the wrapped transport. -/
inductive RTResult where
  | redirect (code : Nat) (location : List Char)
  | delegate (req : URL)
deriving DecidableEq, Repr

/-- The request phase of `RoundTrip`: on upgrade, a synthesized
`http.StatusTemporaryRedirect` (307) response whose Location is the
rewritten URL, and the wrapped transport is never invoked; otherwise the
request is delegated unchanged. -/
def roundTrip (state : Store) (req : URL) (now : Int) : RTResult × Store :=
  match needsUpgrade state req now with
  | (some u, st) => (RTResult.redirect 307 (urlString u), st)
  | (none, st) => (RTResult.delegate req, st)

/-- `add` of transport.go: a `max-age=0` directive deletes the host's
entry, anything else inserts/overwrites. -/
def add (state : Store) (host : List Char) (d : Directive) : Store :=
  if d.maxAge = 0 then deleteKey state host else insertKey state host d

/-- `processResponse` of transport.go: read the header (Go
`Header.Get` returns the empty string when absent), parse it, and update
the state; a missing or invalid header is a no-op. -/
def processResponse (state : Store) (respHost : List Char) (header : List Char)
    (now : Int) : Store :=
  if header = [] then state
  else
    match parse header now with
    | none => state
    | some d => add state respHost d

/-- A store with one record for `example.com`. -/
def exStore : Store :=
  fun k => if k = str "example.com" then some ⟨0, 100, true⟩ else none

/-- A store keyed on an authority that carries an explicit port. -/
def exStore2 : Store :=
  fun k => if k = str "example.com:80" then some ⟨0, 0, true⟩ else none

/-- The proper ancestors a suffix walk can visit: every suffix of the host
that follows some `.`. -/
def dotSuffixes : List Char → List (List Char)
  | [] => []
  | c :: rest => if c = '.' then rest :: dotSuffixes rest else dotSuffixes rest

/-- All hosts the suffix walk starting at `h` can visit. -/
def chain (h : List Char) : List (List Char) := h :: dotSuffixes h

/-- The header whose `;`-separated fields are exactly the given list. -/
def joinFields : List (List Char) → List Char
  | [] => []
  | [f] => f
  | f :: rest => f ++ ';' :: joinFields rest

/-- A store with records for both a host and one of its subdomains. -/
def stateC3 : Store := fun k =>
  if k = str "sub.example.com" then some ⟨0, 100, true⟩
  else if k = str "example.com" then some ⟨0, 200, true⟩
  else none

/-- A one-entry preload mapping. -/
def pl0 : List (List Char × Bool) := [(str "example.com", true)]

/-- A store with one non-permanent record, expired at time 100. -/
def stateC6 : Store := fun k => if k = str "example.com" then some ⟨5, 1, true⟩ else none

/-- A store with one non-permanent record at an exact request host. -/
def stateW6 : Store := fun k => if k = str "ex.com" then some ⟨5, 1, true⟩ else none

/-! ## Concrete sanity checks -/

example : parse (str "max-age='1234'") 0 = some ⟨0, 0, false⟩ := by decide
example : parse (str "includeSubDomains") 0 = none := by decide
example : parse (str "max-age=1234; max-age=0") 5 = some ⟨5, 1234, false⟩ := by decide
example : parse (str "max-age=\"5678\"") 0 = some ⟨0, 5678, false⟩ := by decide
example : parse (str "max-age=-5") 0 = some ⟨0, -5, false⟩ := by decide
example : parse (str "MaX-AgE=1234; InClUdEsUbDoMaInS") 0 = some ⟨0, 1234, true⟩ := by decide
example : parse (str " max-age=1234 ; ; includeSubDomains ; ") 0 = some ⟨0, 1234, true⟩ := by decide
example : parse (str "foo; bar=baz") 0 = none := by decide

example : find exStore (str "example.com") true = some ⟨0, 100, true⟩ := by decide
example : find exStore (str "sub.example.com") true = some ⟨0, 100, true⟩ := by decide
example : find exStore (str "com") true = none := by decide
example : find exStore (str "example.com:8080") true = none := by decide
example : rewriteHost (str "example.com:80") = str "example.com:443" := by decide
example : rewriteHost (str "example.com:8080") = str "example.com:8080" := by decide
example : rewriteHost (str "example.com") = str "example.com" := by decide
example : rewriteHost (str "[::1]:80") = str "[::1]:80" := by decide
example :
    (roundTrip exStore2 ⟨str "http", str "example.com:80", str "/x"⟩ 0).1 =
      RTResult.redirect 307 (str "https://example.com:443/x") := by decide
example :
    (roundTrip exStore ⟨str "http", str "example.com:80", str "/x"⟩ 0).1 =
      RTResult.delegate ⟨str "http", str "example.com:80", str "/x"⟩ := by decide


/-! ## Lemmas about `stripLabel`, `find` and the label-stripping chain -/

lemma stripLabel_lt : ∀ {h r : List Char}, stripLabel h = some r → r.length < h.length := by
  intro h
  induction h with
  | nil => intro r hr; simp [stripLabel] at hr
  | cons c rest ih =>
    intro r hr
    simp only [stripLabel] at hr
    by_cases hc : c = '.'
    · rw [if_pos hc] at hr
      cases hr
      simp
    · rw [if_neg hc] at hr
      have := ih hr
      simp
      omega

lemma findFuel_irrel (state : Store) :
    ∀ (f1 f2 : Nat) (host : List Char) (ex : Bool),
      host.length < f1 → host.length < f2 →
      findFuel state f1 host ex = findFuel state f2 host ex := by
  intro f1
  induction f1 with
  | zero => intro f2 host ex h1 _; exact absurd h1 (Nat.not_lt_zero _)
  | succ a ih =>
    intro f2 host ex h1 h2
    cases f2 with
    | zero => exact absurd h2 (Nat.not_lt_zero _)
    | succ b =>
      simp only [findFuel]
      cases hs : state host with
      | none =>
        cases hl : stripLabel host with
        | none => rfl
        | some rest =>
          have hr := stripLabel_lt hl
          exact ih b rest false (by omega) (by omega)
      | some d =>
        show (if (ex || d.includeSubDomains) = true then some d
              else match stripLabel host with
                   | some rest => findFuel state a rest false
                   | none => none) =
             (if (ex || d.includeSubDomains) = true then some d
              else match stripLabel host with
                   | some rest => findFuel state b rest false
                   | none => none)
        cases hb : (ex || d.includeSubDomains) with
        | true => rfl
        | false =>
          show (match stripLabel host with
                | some rest => findFuel state a rest false
                | none => none) =
               (match stripLabel host with
                | some rest => findFuel state b rest false
                | none => none)
          cases hl : stripLabel host with
          | none => rfl
          | some rest =>
            have hr := stripLabel_lt hl
            exact ih b rest false (by omega) (by omega)

/-- The recursion equation of `find`, independent of the fuel. -/
lemma find_unfold (state : Store) (host : List Char) (ex : Bool) :
    find state host ex =
      match state host with
      | some d =>
        if ex || d.includeSubDomains then some d
        else
          match stripLabel host with
          | some rest => find state rest false
          | none => none
      | none =>
        match stripLabel host with
        | some rest => find state rest false
        | none => none := by
  show findFuel state (host.length + 1) host ex = _
  simp only [findFuel]
  cases hs : state host with
  | none =>
    cases hl : stripLabel host with
    | none => rfl
    | some rest =>
      have hr := stripLabel_lt hl
      show findFuel state host.length rest false = findFuel state (rest.length + 1) rest false
      exact findFuel_irrel state host.length (rest.length + 1) rest false (by omega) (by omega)
  | some d =>
    show (if (ex || d.includeSubDomains) = true then some d
          else match stripLabel host with
               | some rest => findFuel state host.length rest false
               | none => none) =
         (if (ex || d.includeSubDomains) = true then some d
          else match stripLabel host with
               | some rest => find state rest false
               | none => none)
    cases hb : (ex || d.includeSubDomains) with
    | true => rfl
    | false =>
      show (match stripLabel host with
            | some rest => findFuel state host.length rest false
            | none => none) =
           (match stripLabel host with
            | some rest => find state rest false
            | none => none)
      cases hl : stripLabel host with
      | none => rfl
      | some rest =>
        have hr := stripLabel_lt hl
        show findFuel state host.length rest false = findFuel state (rest.length + 1) rest false
        exact findFuel_irrel state host.length (rest.length + 1) rest false (by omega) (by omega)

lemma dotSuffixes_eq_stripLabel (h : List Char) :
    dotSuffixes h =
      match stripLabel h with
      | some r => r :: dotSuffixes r
      | none => [] := by
  induction h with
  | nil => rfl
  | cons c rest ih =>
    simp only [dotSuffixes, stripLabel]
    by_cases hc : c = '.'
    · rw [if_pos hc, if_pos hc]
    · rw [if_neg hc, if_neg hc, ih]

lemma mem_dotSuffixes_length {Y h : List Char} (hY : Y ∈ dotSuffixes h) :
    Y.length < h.length := by
  induction h with
  | nil => simp [dotSuffixes] at hY
  | cons c rest ih =>
    simp only [dotSuffixes] at hY
    by_cases hc : c = '.'
    · rw [if_pos hc] at hY
      rcases List.mem_cons.mp hY with h1 | h1
      · subst h1; simp
      · have := ih h1; simp; omega
    · rw [if_neg hc] at hY
      have := ih hY; simp; omega

lemma mem_dotSuffixes_append (p H : List Char) : H ∈ dotSuffixes (p ++ '.' :: H) := by
  induction p with
  | nil => simp [dotSuffixes]
  | cons c p' ih =>
    simp only [List.cons_append, dotSuffixes]
    by_cases hc : c = '.'
    · rw [if_pos hc]
      exact List.mem_cons_of_mem _ ih
    · rw [if_neg hc]
      exact ih

lemma dotSuffixes_nil_of_no_dot : ∀ {h : List Char}, ('.' : Char) ∉ h → dotSuffixes h = [] := by
  intro h
  induction h with
  | nil => intro; rfl
  | cons c rest ih =>
    intro hd
    simp only [dotSuffixes]
    have hc : ¬ c = '.' := fun e => hd (e ▸ List.mem_cons_self c rest)
    rw [if_neg hc]
    exact ih fun hm => hd (List.mem_cons_of_mem _ hm)

/-- When every host on the walk is absent, `find` returns nothing. -/
lemma find_none_all (state : Store) :
    ∀ (n : Nat) (X : List Char), X.length ≤ n →
      (∀ Y ∈ chain X, state Y = none) → ∀ ex, find state X ex = none := by
  intro n
  induction n with
  | zero =>
    intro X hlen habs ex
    have hX : X = [] := List.length_eq_zero.mp (Nat.le_zero.mp hlen)
    subst hX
    rw [find_unfold, habs [] (by simp [chain])]
    rfl
  | succ n ih =>
    intro X hlen habs ex
    rw [find_unfold, habs X (by simp [chain])]
    cases hl : stripLabel X with
    | none => rfl
    | some r =>
      have hd : dotSuffixes X = r :: dotSuffixes r := by
        rw [dotSuffixes_eq_stripLabel, hl]
      have hsub : ∀ Y ∈ chain r, state Y = none := by
        intro Y hY
        apply habs
        simp only [chain, hd]
        simp only [chain] at hY
        exact List.mem_cons_of_mem _ hY
      have := stripLabel_lt hl
      exact ih r (by omega) hsub false

lemma find_exact {state : Store} {host : List Char} {d : Directive}
    (h : state host = some d) : find state host true = some d := by
  rw [find_unfold, h]
  simp

/-- When the walk from `X` reaches `H`, `H` holds the only record on the
walk, and `X ≠ H`, `find` returns `H`'s record exactly when it includes
subdomains. -/
lemma find_walk (state : Store) {H : List Char} {d : Directive} (hH : state H = some d) :
    ∀ (n : Nat) (X : List Char), X.length ≤ n → H ∈ dotSuffixes X →
      (∀ Y ∈ chain X, Y ≠ H → state Y = none) →
      ∀ ex, find state X ex = if d.includeSubDomains then some d else none := by
  intro n
  induction n with
  | zero =>
    intro X hlen hmem _ _
    have hX : X = [] := List.length_eq_zero.mp (Nat.le_zero.mp hlen)
    subst hX
    simp [dotSuffixes] at hmem
  | succ n ih =>
    intro X hlen hmem habs ex
    have hXH : X ≠ H := by
      intro e
      have hlt := mem_dotSuffixes_length hmem
      rw [e] at hlt
      exact lt_irrefl _ hlt

    have hX : state X = none := habs X (by simp [chain]) hXH
    rw [find_unfold, hX]
    cases hl : stripLabel X with
    | none =>
      rw [dotSuffixes_eq_stripLabel, hl] at hmem
      simp at hmem
    | some r =>
      have hd : dotSuffixes X = r :: dotSuffixes r := by
        rw [dotSuffixes_eq_stripLabel, hl]
      rw [hd] at hmem
      have hlr := stripLabel_lt hl
      rcases List.mem_cons.mp hmem with rfl | hmem2
      · -- the next hop is H itself
        show find state H false = if d.includeSubDomains = true then some d else none
        rw [find_unfold, hH]
        show (if (false || d.includeSubDomains) = true then some d
              else match stripLabel H with
                   | some r2 => find state r2 false
                   | none => none) = if d.includeSubDomains = true then some d else none
        by_cases hisd : d.includeSubDomains = true
        · rw [hisd]
          simp
        · have hisd2 : d.includeSubDomains = false := by
            cases hcc : d.includeSubDomains
            · rfl
            · exact absurd hcc hisd
          rw [hisd2]
          show (match stripLabel H with
                | some r2 => find state r2 false
                | none => none) = none
          cases hl2 : stripLabel H with
          | none => rfl
          | some r2 =>
            have hd2 : dotSuffixes H = r2 :: dotSuffixes r2 := by
              rw [dotSuffixes_eq_stripLabel, hl2]
            have habs2 : ∀ Y ∈ chain r2, state Y = none := by
              intro Y hY
              have hYmem : Y ∈ dotSuffixes H := by
                rw [hd2]
                simpa [chain] using hY
              have hYX : Y ∈ chain X := by
                simp only [chain, hd]
                exact List.mem_cons_of_mem _ (List.mem_cons_of_mem _ hYmem)
              exact habs Y hYX (by
                intro e
                have hlt := mem_dotSuffixes_length hYmem
                rw [e] at hlt
                exact lt_irrefl _ hlt)
            have := stripLabel_lt hl2
            exact find_none_all state H.length r2 (by omega) habs2 false
      · -- recurse to the next hop
        have habs3 : ∀ Y ∈ chain r, Y ≠ H → state Y = none := by
          intro Y hY hne
          apply habs Y _ hne
          simp only [chain, hd]
          simp only [chain] at hY
          exact List.mem_cons_of_mem _ hY
        exact ih r (by omega) hmem2 habs3 false

/-! ## Lemmas about the parser fold -/

lemma processField_directives (st : PState) (f : List Char) :
    (processField st f).directives =
      if canonName f ∈ st.directives then st.directives
      else canonName f :: st.directives := by
  by_cases h : canonName f ∈ st.directives
  · rw [if_pos h]
    unfold processField
    rw [if_pos h]
  · rw [if_neg h]
    unfold processField
    rw [if_neg h]
    cases hv : valueStage f with
    | none => rfl
    | some v =>
      show (if canonName f = str "max-age" then
              match goAtoi v with
              | none => { st with directives := canonName f :: st.directives }
              | some secs =>
                { st with directives := canonName f :: st.directives, maxAge := secs }
            else if canonName f = str "includesubdomains" then
              if v ≠ [] then { st with directives := canonName f :: st.directives }
              else
                { st with directives := canonName f :: st.directives,
                          includeSubDomains := true }
            else { st with directives := canonName f :: st.directives } :
              PState).directives = canonName f :: st.directives
      by_cases h1 : canonName f = str "max-age"
      · rw [if_pos h1]
        cases goAtoi v <;> rfl
      · rw [if_neg h1]
        by_cases h2 : canonName f = str "includesubdomains"
        · rw [if_pos h2]
          by_cases h3 : v ≠ []
          · rw [if_pos h3]
          · rw [if_neg h3]
        · rw [if_neg h2]

lemma mem_processField_directives (st : PState) (f : List Char) (n : List Char) :
    n ∈ (processField st f).directives ↔ n = canonName f ∨ n ∈ st.directives := by
  rw [processField_directives]
  by_cases h : canonName f ∈ st.directives
  · rw [if_pos h]
    constructor
    · exact Or.inr
    · rintro (rfl | h1)
      · exact h
      · exact h1
  · rw [if_neg h]
    exact List.mem_cons

lemma mem_foldl_directives (fs : List (List Char)) :
    ∀ (st : PState) (n : List Char),
      n ∈ (fs.foldl processField st).directives ↔
        n ∈ st.directives ∨ ∃ f ∈ fs, canonName f = n := by
  induction fs with
  | nil => intro st n; simp
  | cons f fs ih =>
    intro st n
    simp only [List.foldl_cons]
    rw [ih, mem_processField_directives]
    constructor
    · rintro ((rfl | h1) | ⟨g, hg, hcg⟩)
      · exact Or.inr ⟨f, List.mem_cons_self f fs, rfl⟩
      · exact Or.inl h1
      · exact Or.inr ⟨g, List.mem_cons_of_mem _ hg, hcg⟩
    · rintro (h1 | ⟨g, hg, hcg⟩)
      · exact Or.inl (Or.inr h1)
      · rcases List.mem_cons.mp hg with rfl | hg2
        · exact Or.inl (Or.inl hcg.symm)
        · exact Or.inr ⟨g, hg2, hcg⟩

lemma parseFields_eq_none_iff (fs : List (List Char)) (now : Int) :
    parseFields fs now = none ↔ ∀ f ∈ fs, canonName f ≠ str "max-age" := by
  unfold parseFields
  by_cases h : str "max-age" ∈ (fs.foldl processField ⟨[], 0, false⟩).directives
  · rw [if_pos h]
    rw [mem_foldl_directives] at h
    simp only [PState.directives] at h
    constructor
    · intro hc; exact absurd hc (by simp)
    · intro hall
      rcases h with h | ⟨f, hf, hcf⟩
      · simp at h
      · exact absurd hcf (hall f hf)
  · rw [if_neg h]
    rw [mem_foldl_directives] at h
    push_neg at h
    simp only [PState.directives] at h
    constructor
    · intro _ f hf
      rcases h with ⟨-, h2⟩
      exact fun e => h2 f hf e
    · intro _; rfl

lemma processField_dup {st : PState} {f : List Char} (h : canonName f ∈ st.directives) :
    processField st f = st := by
  unfold processField
  rw [if_pos h]

/-! ## Joining and splitting header fields -/

lemma splitOnChar_no_sep {sep : Char} {s : List Char} (h : sep ∉ s) :
    splitOnChar sep s = [s] := by
  induction s with
  | nil => rfl
  | cons c rest ih =>
    have hc : ¬ c = sep := fun e => h (e ▸ List.mem_cons_self c rest)
    simp only [splitOnChar, if_neg hc]
    rw [ih fun hm => h (List.mem_cons_of_mem _ hm)]

lemma splitOnChar_append {sep : Char} {a : List Char} (h : sep ∉ a) (t : List Char) :
    splitOnChar sep (a ++ sep :: t) = a :: splitOnChar sep t := by
  induction a with
  | nil => simp [splitOnChar]
  | cons c a' ih =>
    have hc : ¬ c = sep := fun e => h (e ▸ List.mem_cons_self c a')
    simp only [List.cons_append, splitOnChar, if_neg hc]
    have ih2 := ih fun hm => h (List.mem_cons_of_mem _ hm)
    rw [show a'.append (sep :: t) = a' ++ sep :: t from rfl, ih2]

lemma splitOnChar_joinFields :
    ∀ (L : List (List Char)), L ≠ [] → (∀ p ∈ L, (';' : Char) ∉ p) →
      splitOnChar ';' (joinFields L) = L := by
  intro L
  induction L with
  | nil => intro h; exact absurd rfl h
  | cons a L ih =>
    intro _ hfree
    cases L with
    | nil => exact splitOnChar_no_sep (hfree a (List.mem_cons_self a []))
    | cons b L2 =>
      show splitOnChar ';' (a ++ ';' :: joinFields (b :: L2)) = a :: b :: L2
      rw [splitOnChar_append (hfree a (List.mem_cons_self a _))]
      rw [ih (by simp) fun p hp => hfree p (List.mem_cons_of_mem _ hp)]

/-! ## Lemmas about `new` and `splitOnce` -/

lemma new_inv (preload : List (List Char × Bool)) :
    ∀ k dk, new preload k = some dk → dk.received = 0 ∧ dk.maxAge = 0 := by
  have key : ∀ (l : List (List Char × Bool)) (st : Store),
      (∀ k dk, st k = some dk → dk.received = 0 ∧ dk.maxAge = 0) →
      ∀ k dk, (l.foldl (fun st e => insertKey st e.1 ⟨0, 0, e.2⟩) st) k = some dk →
        dk.received = 0 ∧ dk.maxAge = 0 := by
    intro l
    induction l with
    | nil => intro st h; exact h
    | cons e es ih =>
      intro st h
      simp only [List.foldl_cons]
      apply ih
      intro k dk hk
      unfold insertKey at hk
      by_cases hke : k = e.1
      · rw [if_pos hke] at hk
        cases hk
        exact ⟨rfl, rfl⟩
      · rw [if_neg hke] at hk
        exact h k dk hk
  exact key preload (fun _ => none) (fun k dk h => by simp at h)

lemma splitOnce_append {sep : Char} {n : List Char} (h : sep ∉ n) (p : List Char) :
    splitOnce sep (n ++ sep :: p) = (n, some p) := by
  induction n with
  | nil => simp [splitOnce]
  | cons c n' ih =>
    have hc : ¬ c = sep := fun e => h (e ▸ List.mem_cons_self c n')
    simp only [List.cons_append, splitOnce, if_neg hc]
    have ih2 := ih fun hm => h (List.mem_cons_of_mem _ hm)
    rw [show n'.append (sep :: p) = n' ++ sep :: p from rfl, ih2]

/-! ## Claim C1 -/

/-- Claim C1 (amended): `parse` returns Invalid (no record) exactly when no
directive in the header has (trimmed, lower-cased) name `max-age`; whenever
some directive is named `max-age`, a record is returned even if no
occurrence's value was successfully parsed — `maxAge` then stays `0`.  In
particular `parse "max-age='1234'"` yields a record with `maxAge = 0`,
not Invalid. -/
theorem claim1_theorem :
    ∀ (header : List Char) (now : Int),
      ((∀ f ∈ splitOnChar ';' header, canonName f ≠ str "max-age") →
        parse header now = none)
    ∧ ((∃ f ∈ splitOnChar ';' header, canonName f = str "max-age") →
        parse header now ≠ none)
    ∧ parse (str "max-age='1234'") now = some ⟨now, 0, false⟩ := by
  intro header now
  refine ⟨?_, ?_, rfl⟩
  · intro hall
    exact (parseFields_eq_none_iff _ now).mpr hall
  · rintro ⟨f, hf, hcf⟩ hn
    have hall := (parseFields_eq_none_iff (splitOnChar ';' header) now).mp hn
    exact absurd hcf (hall f hf)

/-- Claim C1 counterexample: a header whose only `max-age` directive is
mal-quoted still produces a record (with `maxAge = 0`), while the claim
says it must yield Invalid. -/
theorem claim1_counterexample :
    parse (str "max-age='1234'") 0 = some ⟨0, 0, false⟩
    ∧ ¬ parse (str "max-age='1234'") 0 = none := by
  exact ⟨by decide, by decide⟩

/-- Claim C1 witness. -/
theorem claim1_witness :
    parse (str "includeSubDomains") 1 = none
    ∧ parse (str "max-age=8") 1 ≠ none
    ∧ parse (str "max-age='1234'") 1 = some ⟨1, 0, false⟩ := by
  have h1 := claim1_theorem (str "includeSubDomains") 1
  have h2 := claim1_theorem (str "max-age=8") 1
  exact ⟨h1.1 (by decide), h2.2.1 ⟨str "max-age=8", by decide, by decide⟩, h1.2.2⟩

/-! ## Claim C2 -/

/-- Claim C2: a response whose Strict-Transport-Security header the parser
reports as Invalid (`parse = none`) never causes a state transition: the
whole store — in particular the entry of every host — is unchanged by the
response phase. -/
theorem claim2_theorem :
    ∀ (state : Store) (host header : List Char) (now : Int),
      parse header now = none →
      processResponse state host header now = state := by
  intro state host header now h
  unfold processResponse
  by_cases hh : header = []
  · rw [if_pos hh]
  · rw [if_neg hh, h]

/-- Claim C2 witness. -/
theorem claim2_witness :
    processResponse exStore (str "example.com") (str "includeSubDomains") 3 = exStore :=
  claim2_theorem exStore (str "example.com") (str "includeSubDomains") 3 (by decide)

/-! ## Claim C7 -/

/-- Claim C7: when a directive name occurs more than once in a header, only
the first occurrence is processed: a later field with an already-seen name
can be deleted without changing the parse result; in particular
`parse "max-age=1234; max-age=0"` yields `maxAge = 1234`. -/
theorem claim7_theorem :
    ∀ (pre post : List (List Char)) (f : List Char) (now : Int),
      (∀ p ∈ pre, (';' : Char) ∉ p) → (∀ p ∈ post, (';' : Char) ∉ p) →
      (';' : Char) ∉ f →
      (∃ g ∈ pre, canonName g = canonName f) →
      parse (joinFields (pre ++ f :: post)) now = parse (joinFields (pre ++ post)) now
    ∧ parse (str "max-age=1234; max-age=0") now = some ⟨now, 1234, false⟩ := by
  intro pre post f now hpre hpost hf hdup
  refine ⟨?_, rfl⟩
  have hfree1 : ∀ p ∈ pre ++ f :: post, (';' : Char) ∉ p := by
    intro p hp
    rcases List.mem_append.mp hp with h1 | h1
    · exact hpre p h1
    · rcases List.mem_cons.mp h1 with rfl | h2
      · exact hf
      · exact hpost p h2
  have hfree2 : ∀ p ∈ pre ++ post, (';' : Char) ∉ p := by
    intro p hp
    rcases List.mem_append.mp hp with h1 | h1
    · exact hpre p h1
    · exact hpost p h1
  have hne2 : pre ++ post ≠ [] := by
    rcases hdup with ⟨g, hg, -⟩
    intro e
    rcases List.append_eq_nil.mp e with ⟨e1, -⟩
    rw [e1] at hg
    simp at hg
  unfold parse
  rw [splitOnChar_joinFields _ (by simp) hfree1, splitOnChar_joinFields _ hne2 hfree2]
  unfold parseFields
  rw [List.foldl_append, List.foldl_append, List.foldl_cons]
  have hseen : canonName f ∈ (pre.foldl processField ⟨[], 0, false⟩).directives := by
    rw [mem_foldl_directives]
    exact Or.inr hdup
  rw [processField_dup hseen]

/-- Claim C7 witness. -/
theorem claim7_witness :
    parse (joinFields [str "max-age=7", str "max-age=0"]) 4 =
      parse (joinFields [str "max-age=7"]) 4
    ∧ parse (str "max-age=1234; max-age=0") 4 = some ⟨4, 1234, false⟩ := by
  have h := claim7_theorem [str "max-age=7"] [] (str "max-age=0") 4
    (by decide) (by decide) (by decide) ⟨str "max-age=7", by decide, by decide⟩
  exact ⟨h.1, h.2⟩

/-! ## Claim C8 -/

lemma canonName_maxage_field (v : List Char) :
    canonName (str "max-age=" ++ v) = str "max-age" := rfl

lemma processField_maxage_fail {v : List Char}
    (hfail : effAge (str "max-age=" ++ v) = none) :
    ∀ st, processField st (str "max-age=" ++ v) = processField st (str "max-age") := by
  intro st
  have hn := canonName_maxage_field v
  have hn2 : canonName (str "max-age") = str "max-age" := by decide
  unfold processField
  rw [hn, hn2]
  by_cases h : str "max-age" ∈ st.directives
  · rw [if_pos h, if_pos h]
  · rw [if_neg h, if_neg h]
    cases hvs : valueStage (str "max-age=" ++ v) with
    | none => rfl
    | some w =>
      have hfail2 : goAtoi w = none := by
        unfold effAge at hfail
        rw [hvs] at hfail
        exact hfail
      show (match goAtoi w with
            | none =>
              ({ st with directives := str "max-age" :: st.directives } : PState)
            | some secs =>
              { st with directives := str "max-age" :: st.directives,
                        maxAge := secs }) =
           ({ st with directives := str "max-age" :: st.directives } : PState)
      rw [hfail2]

/-- Claim C8 (amended): a `max-age` occurrence whose (post-quoting) value
fails Go integer parsing is ignored and contributes nothing beyond claiming
the directive name — the header parses exactly as if the field were a bare
`max-age` with no value; but a negative integer such as `-5` parses
successfully (Go `Atoi` accepts a sign) and yields `maxAge = -5`: negative
values are not rejected. -/
theorem claim8_theorem :
    ∀ (pre post : List (List Char)) (v : List Char) (now : Int),
      (∀ p ∈ pre, (';' : Char) ∉ p) → (∀ p ∈ post, (';' : Char) ∉ p) →
      (';' : Char) ∉ v →
      effAge (str "max-age=" ++ v) = none →
      parse (joinFields (pre ++ (str "max-age=" ++ v) :: post)) now =
        parse (joinFields (pre ++ str "max-age" :: post)) now
    ∧ parse (str "max-age=-5") now = some ⟨now, -5, false⟩ := by
  intro pre post v now hpre hpost hv hfail
  refine ⟨?_, rfl⟩
  have hsemi : (';' : Char) ∉ str "max-age=" ++ v := by
    intro hm
    rcases List.mem_append.mp hm with h1 | h1
    · revert h1; decide
    · exact hv h1
  have hfree1 : ∀ p ∈ pre ++ (str "max-age=" ++ v) :: post, (';' : Char) ∉ p := by
    intro p hp
    rcases List.mem_append.mp hp with h1 | h1
    · exact hpre p h1
    · rcases List.mem_cons.mp h1 with rfl | h2
      · exact hsemi
      · exact hpost p h2
  have hfree2 : ∀ p ∈ pre ++ str "max-age" :: post, (';' : Char) ∉ p := by
    intro p hp
    rcases List.mem_append.mp hp with h1 | h1
    · exact hpre p h1
    · rcases List.mem_cons.mp h1 with rfl | h2
      · decide
      · exact hpost p h2
  unfold parse
  rw [splitOnChar_joinFields _ (by simp) hfree1,
      splitOnChar_joinFields _ (by simp) hfree2]
  unfold parseFields
  rw [List.foldl_append, List.foldl_append, List.foldl_cons, List.foldl_cons]
  rw [processField_maxage_fail hfail]

/-- Claim C8 counterexample: `max-age=-5` is accepted, not ignored: the
resulting record's `maxAge` is `-5`, a value the occurrence was claimed to
never contribute. -/
theorem claim8_counterexample :
    parse (str "max-age=-5") 0 = some ⟨0, -5, false⟩
    ∧ ((-5 : Int) < 0) := by
  exact ⟨by decide, by decide⟩

/-- Claim C8 witness. -/
theorem claim8_witness :
    parse (joinFields [str "zz", str "max-age=" ++ str "xx"]) 2 =
      parse (joinFields [str "zz", str "max-age"]) 2
    ∧ parse (str "max-age=-5") 2 = some ⟨2, -5, false⟩ := by
  have h := claim8_theorem [str "zz"] [] (str "xx") 2
    (by decide) (by decide) (by decide) (by decide)
  exact ⟨h.1, h.2⟩

/-! ## Claim C3 -/

/-- Claim C3 (amended): with a record stored for `H`: an exact request for
`H` resolves to it; a proper subdomain `X = p ++ "." ++ H` resolves to it
exactly when the record has `includeSubDomains = true`, provided every
other host on `X`'s label-stripping chain has no record (with an
intervening record, resolution returns that record instead — see the
counterexample); and when no host on the chain has a record, resolution
finds nothing. -/
theorem claim3_theorem :
    ∀ (state : Store) (H X p : List Char) (d : Directive),
      state H = some d →
      find state H true = some d
    ∧ (X = p ++ '.' :: H →
        (∀ Y ∈ chain X, Y ≠ H → state Y = none) →
        find state X true = if d.includeSubDomains then some d else none)
    ∧ ((∀ Y ∈ chain X, state Y = none) → find state X true = none) := by
  intro state H X p d hH
  refine ⟨find_exact hH, ?_, ?_⟩
  · intro hX habs
    subst hX
    exact find_walk state hH (p ++ '.' :: H).length _ le_rfl
      (mem_dotSuffixes_append p H) habs true
  · intro habs
    exact find_none_all state X.length X le_rfl habs true

/-- Claim C3 counterexample: the store holds records for both
`sub.example.com` and `example.com`, both with `includeSubDomains = true`;
the request host `a.sub.example.com` is a proper subdomain of
`example.com`, whose record has `includeSubDomains = true`, yet resolution
does not match that record (it stops at `sub.example.com`'s). -/
theorem claim3_counterexample :
    str "a.sub.example.com" = str "a.sub" ++ '.' :: str "example.com"
    ∧ stateC3 (str "example.com") = some ⟨0, 200, true⟩
    ∧ Directive.includeSubDomains ⟨0, 200, true⟩ = true
    ∧ ¬ find stateC3 (str "a.sub.example.com") true = some ⟨0, 200, true⟩ := by
  refine ⟨by decide, by decide, rfl, by decide⟩

/-- Claim C3 witness. -/
theorem claim3_witness :
    find exStore (str "example.com") true = some ⟨0, 100, true⟩
    ∧ find exStore (str "sub.example.com") true = some ⟨0, 100, true⟩
    ∧ find exStore (str "nomatch.org") true = none := by
  have h1 := claim3_theorem exStore (str "example.com") (str "sub.example.com")
    (str "sub") ⟨0, 100, true⟩ (by decide)
  have h2 := claim3_theorem exStore (str "example.com") (str "nomatch.org")
    (str "sub") ⟨0, 100, true⟩ (by decide)
  refine ⟨h1.1, ?_, h2.2.2 (by decide)⟩
  have h3 := h1.2.1 (by decide) (by decide)
  rw [h3]
  decide

/-! ## Claim C4 -/

/-- Claim C4 (amended): storing a record with `maxAge = 0` via `add`
deletes the host's entry instead of storing, and `add` preserves the
invariant that no stored record has `maxAge = 0` — so the response path
never retains such a record; however, entries seeded from the preload
mapping at construction do carry `maxAge = 0` (they are permanent through
their zero `received` time, and `maxAge` is never consulted for them), so
the full store does retain `maxAge = 0` records — see the counterexample. -/
theorem claim4_theorem :
    ∀ (state : Store) (host : List Char) (d : Directive),
      (d.maxAge = 0 → add state host d = deleteKey state host)
    ∧ ((∀ k dk, state k = some dk → dk.maxAge ≠ 0) →
        ∀ k dk, add state host d k = some dk → dk.maxAge ≠ 0) := by
  intro state host d
  constructor
  · intro h0
    unfold add
    rw [if_pos h0]
  · intro hinv k dk hk
    unfold add at hk
    by_cases h0 : d.maxAge = 0
    · rw [if_pos h0] at hk
      unfold deleteKey at hk
      by_cases hkh : k = host
      · rw [if_pos hkh] at hk; cases hk
      · rw [if_neg hkh] at hk; exact hinv k dk hk
    · rw [if_neg h0] at hk
      unfold insertKey at hk
      by_cases hkh : k = host
      · rw [if_pos hkh] at hk
        have h2 := Option.some.inj hk
        rw [← h2]
        exact h0
      · rw [if_neg hkh] at hk; exact hinv k dk hk

/-- Claim C4 counterexample: the store built by `New` from a preload entry
retains a record whose `maxAge` is `0`. -/
theorem claim4_counterexample :
    new [(str "a", true)] (str "a") = some ⟨0, 0, true⟩
    ∧ Directive.maxAge ⟨0, 0, true⟩ = 0 := by
  exact ⟨by decide, rfl⟩

/-- Claim C4 witness. -/
theorem claim4_witness :
    add exStore (str "example.com") ⟨9, 0, true⟩ = deleteKey exStore (str "example.com")
    ∧ Directive.maxAge ⟨3, 7, false⟩ ≠ 0 := by
  have hinv : ∀ k dk, exStore k = some dk → dk.maxAge ≠ 0 := by
    intro k dk hk
    unfold exStore at hk
    by_cases hke : k = str "example.com"
    · rw [if_pos hke] at hk
      have h2 := Option.some.inj hk
      rw [← h2]
      decide
    · rw [if_neg hke] at hk; cases hk
  exact ⟨(claim4_theorem exStore (str "example.com") ⟨9, 0, true⟩).1 rfl,
    (claim4_theorem exStore (str "x") ⟨3, 7, false⟩).2 hinv (str "x") ⟨3, 7, false⟩
      (by decide)⟩

/-! ## Claim C5 -/

/-- Claim C5: records with a zero `received` timestamp are permanent.
Every record seeded by `New` from the preload mapping has `received = 0`
(and `maxAge = 0`); the request phase never removes a zero-`received`
entry (no time eviction); a preloaded host upgrades the very first HTTP
request, before any response was observed; and the response phase removes
an entry only on an observation that parses to a record with
`maxAge = 0` for that exact host. -/
theorem claim5_theorem :
    ∀ (preload : List (List Char × Bool)) (state : Store) (req : URL)
      (host k header : List Char) (now : Int) (dk : Directive),
      (new preload k = some dk → dk.received = 0 ∧ dk.maxAge = 0)
    ∧ (state k = some dk → dk.received = 0 →
        (needsUpgrade state req now).2 k = some dk)
    ∧ (new preload req.host = some dk → req.scheme = str "http" →
        needsUpgrade (new preload) req now =
          (some ⟨str "https", rewriteHost req.host, req.rest⟩, new preload))
    ∧ (state k = some dk → dk.received = 0 →
        processResponse state host header now k = none →
        ∃ r, parse header now = some r ∧ r.maxAge = 0 ∧ k = host) := by
  intro preload state req host k header now dk
  refine ⟨fun h => new_inv preload k dk h, ?_, ?_, ?_⟩
  · intro hk h0
    unfold needsUpgrade
    by_cases hs : req.scheme ≠ str "http"
    · rw [if_pos hs]
      exact hk
    · rw [if_neg hs]
      cases hf : find state req.host true with
      | none => exact hk
      | some d =>
        show (if d.received ≠ 0 ∧ now > d.received + d.maxAge then
                (none, deleteKey state req.host)
              else (some _, state)).2 k = some dk
        by_cases hexp : d.received ≠ 0 ∧ now > d.received + d.maxAge
        · rw [if_pos hexp]
          show deleteKey state req.host k = some dk
          unfold deleteKey
          by_cases hkh : k = req.host
          · exfalso
            subst hkh
            have hfe := find_exact hk
            rw [hf] at hfe
            have h2 := Option.some.inj hfe
            exact hexp.1 (by rw [h2, h0])
          · rw [if_neg hkh]; exact hk
        · rw [if_neg hexp]
          exact hk
  · intro hnew hscheme
    have h0 := (new_inv preload req.host dk hnew).1
    unfold needsUpgrade
    rw [if_neg (fun hc => hc hscheme), find_exact hnew]
    have hcond : ¬ (dk.received ≠ 0 ∧ now > dk.received + dk.maxAge) :=
      fun hc => hc.1 h0
    show (if dk.received ≠ 0 ∧ now > dk.received + dk.maxAge then
            (none, deleteKey (new preload) req.host)
          else (some { req with
                        scheme := if req.scheme = str "http" then str "https"
                                  else req.scheme,
                        host := rewriteHost req.host }, new preload)) =
         (some ⟨str "https", rewriteHost req.host, req.rest⟩, new preload)
    rw [if_neg hcond, hscheme, if_pos rfl]
  · intro hk h0 hdel
    unfold processResponse at hdel
    by_cases hh : header = []
    · rw [if_pos hh] at hdel
      rw [hdel] at hk
      cases hk
    · rw [if_neg hh] at hdel
      cases hp : parse header now with
      | none =>
        rw [hp] at hdel
        have hdel2 : state k = none := hdel
        rw [hdel2] at hk
        cases hk
      | some r =>
        rw [hp] at hdel
        have hdel2 : add state host r k = none := hdel
        unfold add at hdel2
        by_cases h0r : r.maxAge = 0
        · rw [if_pos h0r] at hdel2
          unfold deleteKey at hdel2
          by_cases hkh : k = host
          · exact ⟨r, rfl, h0r, hkh⟩
          · rw [if_neg hkh] at hdel2
            rw [hdel2] at hk
            cases hk
        · rw [if_neg h0r] at hdel2
          unfold insertKey at hdel2
          by_cases hkh : k = host
          · rw [if_pos hkh] at hdel2
            cases hdel2
          · rw [if_neg hkh] at hdel2
            rw [hdel2] at hk
            cases hk

/-- Claim C5 witness. -/
theorem claim5_witness :
    Directive.received ⟨0, 0, true⟩ = 0
    ∧ needsUpgrade (new pl0) ⟨str "http", str "example.com", str "/a"⟩ 42 =
        (some ⟨str "https", rewriteHost (str "example.com"), str "/a"⟩, new pl0)
    ∧ (needsUpgrade exStore ⟨str "http", str "zzz", []⟩ 7).2 (str "example.com") =
        some ⟨0, 100, true⟩ := by
  have h1 := claim5_theorem pl0 exStore ⟨str "http", str "example.com", str "/a"⟩
    (str "h") (str "example.com") (str "hd") 42 ⟨0, 0, true⟩
  have h2 := claim5_theorem pl0 exStore ⟨str "http", str "zzz", []⟩
    (str "h") (str "example.com") (str "hd") 7 ⟨0, 100, true⟩
  refine ⟨(h1.1 (by decide)).1, ?_, h2.2.1 (by decide) (by decide)⟩
  have h3 := claim5_theorem pl0 exStore ⟨str "http", str "example.com", str "/a"⟩
    (str "h") (str "k") (str "hd") 42 ⟨0, 0, true⟩
  exact h3.2.2.1 (by decide) rfl

/-! ## Claim C6 -/

/-- Claim C6 (amended): when an HTTP request matches a non-permanent,
time-expired record, the request phase passes the request through
unmodified (no upgrade, no short-circuit) and deletes the entry stored
under the request-host key; when the match was exact this removes the
expired record, but when the record was matched at a proper ancestor the
ancestor's entry is not removed (the delete targets the request host's
key) — see the counterexample. -/
theorem claim6_theorem :
    ∀ (state : Store) (req : URL) (now : Int) (d : Directive),
      req.scheme = str "http" →
      find state req.host true = some d →
      d.received ≠ 0 → now > d.received + d.maxAge →
      needsUpgrade state req now = (none, deleteKey state req.host)
    ∧ (needsUpgrade state req now).2 req.host = none
    ∧ (∀ k, k ≠ req.host → (needsUpgrade state req now).2 k = state k)
    ∧ (roundTrip state req now).1 = RTResult.delegate req := by
  intro state req now d hs hf h1 h2
  have hmain : needsUpgrade state req now = (none, deleteKey state req.host) := by
    unfold needsUpgrade
    rw [if_neg (fun hc => hc hs), hf]
    show (if d.received ≠ 0 ∧ now > d.received + d.maxAge then
            (none, deleteKey state req.host)
          else (some _, state)) = (none, deleteKey state req.host)
    rw [if_pos ⟨h1, h2⟩]
  refine ⟨hmain, ?_, ?_, ?_⟩
  · rw [hmain]
    show deleteKey state req.host req.host = none
    unfold deleteKey
    rw [if_pos rfl]
  · intro k hk
    rw [hmain]
    show deleteKey state req.host k = state k
    unfold deleteKey
    rw [if_neg hk]
  · unfold roundTrip
    rw [hmain]

/-- Claim C6 counterexample: the expired record lives at `example.com` but
is matched for request host `sub.example.com`; the request phase deletes
the key `sub.example.com` (a no-op) and the now-expired matched entry
remains in the store. -/
theorem claim6_counterexample :
    find stateC6 (str "sub.example.com") true = some ⟨5, 1, true⟩
    ∧ ¬ (5 : Int) = 0
    ∧ ((100 : Int) > 5 + 1)
    ∧ (needsUpgrade stateC6 ⟨str "http", str "sub.example.com", []⟩ 100).1 = none
    ∧ (needsUpgrade stateC6 ⟨str "http", str "sub.example.com", []⟩ 100).2
        (str "example.com") = some ⟨5, 1, true⟩ := by decide

/-- Claim C6 witness. -/
theorem claim6_witness :
    (needsUpgrade stateW6 ⟨str "http", str "ex.com", []⟩ 100).2 (str "ex.com") = none
    ∧ (roundTrip stateW6 ⟨str "http", str "ex.com", []⟩ 100).1 =
        RTResult.delegate ⟨str "http", str "ex.com", []⟩ := by
  have h := claim6_theorem stateW6 ⟨str "http", str "ex.com", []⟩ 100 ⟨5, 1, true⟩
    rfl (by decide) (by decide) (by decide)
  exact ⟨h.2.1, h.2.2.2⟩

/-! ## Claim C9 -/

/-- Claim C9: an HTTP request matching an unexpired record never reaches
the wrapped transport: `RoundTrip` returns a synthesized 307 response
whose Location is the request URL with the scheme rewritten to `https`,
an explicit port that parses to exactly 80 rewritten to 443, any other
explicit port preserved (its numeric value unchanged, rendered in
decimal), a non-numeric port part left alone, and no port added when the
authority has none. -/
theorem claim9_theorem :
    ∀ (state : Store) (req : URL) (now : Int) (d : Directive),
      req.scheme = str "http" →
      find state req.host true = some d →
      (d.received = 0 ∨ now ≤ d.received + d.maxAge) →
      roundTrip state req now =
        (RTResult.redirect 307
          (urlString ⟨str "https", rewriteHost req.host, req.rest⟩), state)
    ∧ ((':' : Char) ∉ req.host → rewriteHost req.host = req.host)
    ∧ (∀ n p, req.host = n ++ ':' :: p → (':' : Char) ∉ n →
        goAtoi p = some 80 → rewriteHost req.host = n ++ str ":443")
    ∧ (∀ n p m, req.host = n ++ ':' :: p → (':' : Char) ∉ n →
        goAtoi p = some m → m ≠ 80 →
        rewriteHost req.host = n ++ ':' :: (toString m).data)
    ∧ (∀ n p, req.host = n ++ ':' :: p → (':' : Char) ∉ n →
        goAtoi p = none → rewriteHost req.host = req.host) := by
  intro state req now d hs hf hune
  have hcond : ¬ (d.received ≠ 0 ∧ now > d.received + d.maxAge) := by
    rintro ⟨ha, hb⟩
    rcases hune with h0 | hle
    · exact ha h0
    · omega
  have hmain : needsUpgrade state req now =
      (some ⟨str "https", rewriteHost req.host, req.rest⟩, state) := by
    unfold needsUpgrade
    rw [if_neg (fun hc => hc hs), hf]
    show (if d.received ≠ 0 ∧ now > d.received + d.maxAge then
            (none, deleteKey state req.host)
          else (some { req with
                        scheme := if req.scheme = str "http" then str "https"
                                  else req.scheme,
                        host := rewriteHost req.host }, state)) =
         (some ⟨str "https", rewriteHost req.host, req.rest⟩, state)
    rw [if_neg hcond, hs, if_pos rfl]
  refine ⟨?_, ?_, ?_, ?_, ?_⟩
  · unfold roundTrip
    rw [hmain]
  · intro hnc
    unfold rewriteHost
    rw [if_neg hnc]
  · intro n p hhost hnc hp
    unfold rewriteHost
    rw [hhost]
    have hmem : (':' : Char) ∈ n ++ ':' :: p :=
      List.mem_append_right _ (List.mem_cons_self _ _)
    rw [if_pos hmem, splitOnce_append hnc]
    show (match goAtoi p with
          | some port => n ++ ':' :: (toString (if port = 80 then 443 else port)).data
          | none => n ++ ':' :: p) = n ++ str ":443"
    rw [hp]
    rfl
  · intro n p m hhost hnc hp hm
    unfold rewriteHost
    rw [hhost]
    have hmem : (':' : Char) ∈ n ++ ':' :: p :=
      List.mem_append_right _ (List.mem_cons_self _ _)
    rw [if_pos hmem, splitOnce_append hnc]
    show (match goAtoi p with
          | some port => n ++ ':' :: (toString (if port = 80 then 443 else port)).data
          | none => n ++ ':' :: p) = n ++ ':' :: (toString m).data
    rw [hp]
    show n ++ ':' :: (toString (if m = 80 then 443 else m)).data =
      n ++ ':' :: (toString m).data
    rw [if_neg hm]
  · intro n p hhost hnc hp
    unfold rewriteHost
    rw [hhost]
    have hmem : (':' : Char) ∈ n ++ ':' :: p :=
      List.mem_append_right _ (List.mem_cons_self _ _)
    rw [if_pos hmem, splitOnce_append hnc]
    show (match goAtoi p with
          | some port => n ++ ':' :: (toString (if port = 80 then 443 else port)).data
          | none => n ++ ':' :: p) = n ++ ':' :: p
    rw [hp]

/-- Claim C9 witness. -/
theorem claim9_witness :
    (roundTrip exStore2 ⟨str "http", str "example.com:80", str "/x"⟩ 0).1 =
      RTResult.redirect 307 (str "https://example.com:443/x")
    ∧ rewriteHost (str "example.com:80") = str "example.com" ++ str ":443"
    ∧ rewriteHost (str "example.com:8080") = str "example.com:8080" := by
  have h := claim9_theorem exStore2 ⟨str "http", str "example.com:80", str "/x"⟩ 0
    ⟨0, 0, true⟩ rfl (by decide) (Or.inl rfl)
  have h2 := claim9_theorem
    (fun k => if k = str "example.com:8080" then some (⟨0, 0, true⟩ : Directive) else none)
    ⟨str "http", str "example.com:8080", str "/x"⟩ 0 ⟨0, 0, true⟩ rfl (by decide)
    (Or.inl rfl)
  refine ⟨?_, h.2.2.1 (str "example.com") (str "80") rfl (by decide) (by decide), ?_⟩
  · have h1 := congrArg Prod.fst h.1
    rw [h1]
    decide
  · have h3 := h2.2.2.2.1 (str "example.com") (str "8080") 8080 rfl (by decide)
      (by decide) (by decide)
    rw [h3]
    decide

/-! ## Claim C10 -/

lemma dotSuffixes_colon_shape {P : List Char} (hP : ('.' : Char) ∉ P) :
    ∀ (N Y : List Char), Y ∈ dotSuffixes (N ++ ':' :: P) → ∃ N2, Y = N2 ++ ':' :: P := by
  intro N
  induction N with
  | nil =>
    intro Y hY
    simp only [List.nil_append, dotSuffixes] at hY
    rw [if_neg (by decide : ¬ (':' : Char) = '.'), dotSuffixes_nil_of_no_dot hP] at hY
    simp at hY
  | cons c N2 ih =>
    intro Y hY
    simp only [List.cons_append, dotSuffixes] at hY
    by_cases hc : c = '.'
    · rw [if_pos hc] at hY
      rcases List.mem_cons.mp hY with rfl | h2
      · exact ⟨N2, rfl⟩
      · exact ih Y h2
    · rw [if_neg hc] at hY
      exact ih Y hY

/-- Claim C10: lookup keys are the full authority string: when every key in
the store is a bare host name (no `:`), a request host carrying an
explicit port part (`N ++ ":" ++ P` with no `.` after the colon) never
matches anything — both the exact lookup and every step of the
label-stripping walk still carry the `:port` tail. -/
theorem claim10_theorem :
    ∀ (state : Store) (N P : List Char),
      (∀ K dK, state K = some dK → (':' : Char) ∉ K) →
      ('.' : Char) ∉ P →
      find state (N ++ ':' :: P) true = none := by
  intro state N P hkeys hP
  have habs : ∀ Y ∈ chain (N ++ ':' :: P), state Y = none := by
    intro Y hY
    have hshape : ∃ N2, Y = N2 ++ ':' :: P := by
      rcases List.mem_cons.mp hY with rfl | h2
      · exact ⟨N, rfl⟩
      · exact dotSuffixes_colon_shape hP N Y h2
    rcases hshape with ⟨N2, rfl⟩
    cases hsY : state (N2 ++ ':' :: P) with
    | none => rfl
    | some dK =>
      exact absurd (List.mem_append_right _ (List.mem_cons_self _ _))
        (hkeys _ dK hsY)
  exact find_none_all state (N ++ ':' :: P).length _ le_rfl habs true

/-- Claim C10 witness. -/
theorem claim10_witness :
    find exStore (str "example.com" ++ ':' :: str "8080") true = none := by
  apply claim10_theorem exStore (str "example.com") (str "8080") ?_ (by decide)
  intro K dK hK
  unfold exStore at hK
  by_cases hke : K = str "example.com"
  · subst hke
    decide
  · rw [if_neg hke] at hK
    cases hK

end Hsts
